import Mathlib

/-!
Shallow embedding of the FAISS-backed vector store engine of
`backend/src/services/vector_store_service.py` (class `VectorStoreService`),
together with proofs about the spec's claims.

Modelling conventions:
- Python `str` values are kept as `String`; the chunker, which slices by
  code-point index, works on `List Char` (Python indexes strings by code
  point, matching `String.toList`).
- Python floats (embedding components, distances, similarity scores) are
  modelled as rationals `ℚ`: the claims are about the exact arithmetic
  formulas, not bit-level float behaviour.
- The embedding model (`SentenceTransformer.encode`) is an external
  collaborator; it is a parameter `embed : String → List ℚ`.
- FAISS (`IndexFlatL2`) is an external library. Its behaviour is modelled
  from the spec, section 4.2: exact nearest neighbours by ascending squared
  L2 distance, ties broken by ascending insertion index, `k` clamped to the
  current size, plus the dimension assertion `add` performs.
- The filesystem (`faiss.index` / `metadata.json` files) is a `DiskState`
  carried in the service state; I/O itself always succeeds in the model
  (corrupt-file and write-failure paths are environmental and out of scope).
- Python mutation of `self` becomes explicit state passing: each operation
  returns the updated `VectorStoreService`.  A Python exception that escapes
  an operation is modelled by a `Bool`/`Except`-style outcome paired with
  the state the object was left in (the mutations made before the raise are
  kept, as in Python).
-/

/-- Metadata stored alongside each vector embedding
(dataclass `VectorMetadata` in the source).  The open-ended
`additional_data` dict only ever holds one of the four shapes the source
constructs, so it is modelled as a tagged union (spec section 9). -/
inductive AdditionalData where
  | topicData (topic description : String)
  | decisionData (decision context : String)
      (participants : List String) (impact : Option String)
  | actionData (action assignee deadline status : String)
  | summaryData
deriving Repr, DecidableEq

structure VectorMetadata where
  meeting_id : String
  segment_type : String
  text : String
  timestamp : Option ℚ := none
  segment_index : Option Nat := none
  additional_data : Option AdditionalData := none
  project_id : Option String := none
deriving Repr, DecidableEq

/-- Model of a `faiss.IndexFlatL2`: the dimension `d` fixed at construction
and the ordered list of stored vectors. -/
structure FaissIndex where
  d : Nat
  vectors : List (List ℚ)
deriving Repr, DecidableEq

namespace FaissIndex

/-- Number of stored vectors (`index.ntotal`). -/
def ntotal (ix : FaissIndex) : Nat := ix.vectors.length

/-- Squared Euclidean distance between two vectors. -/
def sqL2 (a b : List ℚ) : ℚ := (List.zipWith (fun x y => (x - y) ^ 2) a b).sum

/-- Vectors of the index paired with their insertion positions, starting
from position `i`. -/
def scoredFrom (q : List ℚ) : Nat → List (List ℚ) → List (Nat × ℚ)
  | _, [] => []
  | i, v :: vs => (i, sqL2 q v) :: scoredFrom q (i + 1) vs

/-- Candidate order of exact flat L2 search: ascending distance, ties by
ascending insertion index (spec section 4.2: deterministic stable order). -/
def candLE (a b : Nat × ℚ) : Prop := a.2 < b.2 ∨ (a.2 = b.2 ∧ a.1 ≤ b.1)

instance : DecidableRel candLE := fun a b => by
  unfold candLE; infer_instance

/-- Modelled from the spec: `faiss.Index.search` on a flat L2 index returns
the `k` nearest stored vectors (as position/distance pairs) by ascending
squared Euclidean distance, `k` clamped to the current size. -/
def search (ix : FaissIndex) (q : List ℚ) (k : Nat) : List (Nat × ℚ) :=
  (List.insertionSort candLE (scoredFrom q 0 ix.vectors)).take k

/-- Appending a vector (`index.add`); FAISS asserts the dimension matches,
which surfaces in Python as an exception, modelled by `none`. -/
def add (ix : FaissIndex) (v : List ℚ) : Option FaissIndex :=
  if v.length = ix.d then some { ix with vectors := ix.vectors ++ [v] } else none

end FaissIndex

/-! ## The chunker (`VectorStoreService._chunk_text`)

The Python loop body runs over `int` offsets and slices with Python
semantics (negative indices count from the end); with `chunk_overlap ≥
chunk_size` the stride `chunk_size - chunk_overlap` is `≤ 0` and the loop
never terminates, so the loop is given an explicit fuel bound and `none`
means the bound was exhausted (the Python program would still be looping).
-/

/-- Clamp a Python slice endpoint to an actual list position:
negative values count from the end, out-of-range values are clamped. -/
def pyBound (n : Nat) (i : Int) : Nat :=
  if i < 0 then ((n : Int) + i).toNat else min i.toNat n

/-- Python slice `text[start:stop]`. -/
def pySlice (text : List Char) (start stop : Int) : List Char :=
  (text.take (pyBound text.length stop)).drop (pyBound text.length start)

/-- Chunking loop of `_chunk_text`: while `start < len(text)`, take the
slice `text[start : start + chunk_size]`, stop once the slice reached the
end of the text, otherwise advance `start` by `chunk_size - chunk_overlap`. -/
def chunkLoop (size : Nat) (step : Int) (text : List Char) :
    Nat → Int → List (List Char) → Option (List (List Char))
  | 0, _, _ => none
  | fuel + 1, start, acc =>
    if start < (text.length : Int) then
      let e : Int := start + (size : Int)
      let acc' := acc ++ [pySlice text start e]
      if (text.length : Int) ≤ e then some acc'
      else chunkLoop size step text fuel (start + step) acc'
    else some acc

/-- Model of `VectorStoreService._chunk_text` (text split into overlapping
chunks).  A text no longer than `chunk_size` is returned whole; otherwise
the sliding-window loop runs, with `fuel` bounding its iterations. -/
def chunk_text (chunk_size chunk_overlap : Nat) (text : List Char)
    (fuel : Nat) : Option (List (List Char)) :=
  if text.length ≤ chunk_size then some [text]
  else chunkLoop chunk_size ((chunk_size : Int) - (chunk_overlap : Int))
    text fuel 0 []

/-! ## Service state and persistence -/

/-- On-disk artifacts: the `faiss.index` file and the `metadata.json` file,
each present or absent independently. -/
structure DiskState where
  index_file : Option FaissIndex
  metadata_file : Option (List VectorMetadata)
deriving Repr, DecidableEq

/-- State of a `VectorStoreService` object: the in-memory FAISS index and
metadata list, the chunking configuration, and the backing disk files. -/
structure VectorStoreService where
  index : Option FaissIndex
  metadata_list : List VectorMetadata
  chunk_size : Nat := 500
  chunk_overlap : Nat := 50
  disk : DiskState
deriving Repr, DecidableEq

namespace VectorStoreService

/-- Model of `_load_index`: when both files exist, replace the in-memory
index and metadata by the disk contents; otherwise reset both to the
uninitialized state. -/
def load_index (s : VectorStoreService) : VectorStoreService :=
  match s.disk.index_file, s.disk.metadata_file with
  | some ix, some mdl => { s with index := some ix, metadata_list := mdl }
  | _, _ => { s with index := none, metadata_list := [] }

/-- Model of `__init__`: fields are set from the arguments and `_load_index`
runs (an absent disk pair leaves the store uninitialized). -/
def init (chunk_size chunk_overlap : Nat) (disk : DiskState) :
    VectorStoreService :=
  load_index { index := none, metadata_list := [],
               chunk_size := chunk_size, chunk_overlap := chunk_overlap,
               disk := disk }

/-- Model of `_save_index`: writes both files from memory, except that a
`None` index or an empty metadata list makes it return without writing. -/
def save_index (s : VectorStoreService) : VectorStoreService :=
  match s.index with
  | none => s
  | some ix =>
    if s.metadata_list.length = 0 then s
    else { s with disk := ⟨some ix, some s.metadata_list⟩ }

/-- Model of `_ensure_index`: nothing happens when an index is already in
memory.  Otherwise, when both disk files exist they are loaded and the
loaded dimension is checked against `embedding_dim`; a mismatch raises a
`ValueError` that the surrounding `except` swallows, discarding the loaded
index and metadata.  When no index survives this, a fresh empty
`IndexFlatL2(embedding_dim)` is created (the metadata list is left as it
was in that branch). -/
def ensure_index (s : VectorStoreService) (embedding_dim : Nat) :
    VectorStoreService :=
  match s.index with
  | some _ => s
  | none =>
    match s.disk.index_file, s.disk.metadata_file with
    | some ix, some mdl =>
      if ix.d ≠ embedding_dim then
        { s with index := some ⟨embedding_dim, []⟩, metadata_list := [] }
      else
        { s with index := some ix, metadata_list := mdl }
    | _, _ => { s with index := some ⟨embedding_dim, []⟩ }

/-- Model of `_add_vector`: embed the metadata's text, make sure an index
exists for that dimension, then append the vector and the metadata in
lockstep.  The `Bool` is `false` when the FAISS `add` assertion fired (a
dimension mismatch against an index already in memory); the returned state
is what the Python object holds at that point. -/
def add_vector (embed : String → List ℚ) (s : VectorStoreService)
    (metadata : VectorMetadata) : VectorStoreService × Bool :=
  let e := embed metadata.text
  let s' := s.ensure_index e.length
  match s'.index with
  | none => (s', false)  -- unreachable: ensure_index always sets an index
  | some ix =>
    match ix.add e with
    | none => (s', false)
    | some ix' =>
      ({ s' with index := some ix',
                 metadata_list := s'.metadata_list ++ [metadata] }, true)

/-- Sequence of `_add_vector` calls as performed by the loops of
`add_meeting_embeddings`: each success bumps `vectors_added`, the first
exception aborts the whole method (remaining items are not attempted). -/
def add_all (embed : String → List ℚ) :
    VectorStoreService → List VectorMetadata →
    VectorStoreService × Nat × Bool
  | s, [] => (s, 0, true)
  | s, md :: rest =>
    let (s', ok) := add_vector embed s md
    if ok then
      let (s'', n, ok') := add_all embed s' rest
      (s'', n + 1, ok')
    else (s', 0, false)

end VectorStoreService

/-! ## Search (`VectorStoreService.search`) -/

/-- One entry of the result list `search` returns (the dict built at the
end of the candidate loop). -/
structure SearchResult where
  text : String
  meeting_id : String
  segment_type : String
  timestamp : Option ℚ
  segment_index : Option Nat
  similarity_score : ℚ
  distance : ℚ
  additional_data : Option AdditionalData
deriving Repr, DecidableEq

namespace VectorStoreService

/-- Candidate skipped by the `segment_types` filter: the argument is truthy
(not `None`, not the empty list) and the record's type is not in it. -/
def segment_filter_out (segment_types : Option (List String))
    (md : VectorMetadata) : Bool :=
  match segment_types with
  | some l => !l.isEmpty && !l.contains md.segment_type
  | none => false

/-- Candidate skipped by the `meeting_ids` filter, same truthiness rule. -/
def meeting_filter_out (meeting_ids : Option (List String))
    (md : VectorMetadata) : Bool :=
  match meeting_ids with
  | some l => !l.isEmpty && !l.contains md.meeting_id
  | none => false

/-- Candidate skipped by the `project_id` filter: when the query passes a
project id, records whose (string-normalized) `project_id` differs — in
particular records with no `project_id` — are dropped. -/
def project_filter_out (project_id : Option String)
    (md : VectorMetadata) : Bool :=
  match project_id with
  | some p => md.project_id != some p
  | none => false

/-- Value of `max(distances[0]) if len(distances[0]) > 0 else 1.0`. -/
def maxDistance (cands : List (Nat × ℚ)) : ℚ :=
  match cands.map Prod.snd with
  | [] => 1
  | d :: ds => ds.foldl max d

/-- Result dict built for a surviving candidate. -/
def mkResult (md : VectorMetadata) (similarity_score distance : ℚ) :
    SearchResult :=
  { text := md.text, meeting_id := md.meeting_id,
    segment_type := md.segment_type, timestamp := md.timestamp,
    segment_index := md.segment_index, similarity_score := similarity_score,
    distance := distance, additional_data := md.additional_data }

/-- Candidate-processing loop of `search`: skip out-of-range positions,
apply the three filters, convert distance to similarity against the
candidate set's maximum distance, drop low scores, and stop as soon as
`top_k` results are collected. -/
def process_loop (mdl : List VectorMetadata)
    (segment_types meeting_ids : Option (List String))
    (project_id : Option String) (min_score : ℚ) (top_k : Nat)
    (max_distance : ℚ) :
    List (Nat × ℚ) → List SearchResult → List SearchResult
  | [], results => results
  | (idx, distance) :: rest, results =>
    if h : idx < mdl.length then
      let metadata := mdl.get ⟨idx, h⟩
      if segment_filter_out segment_types metadata
          || meeting_filter_out meeting_ids metadata
          || project_filter_out project_id metadata then
        process_loop mdl segment_types meeting_ids project_id min_score
          top_k max_distance rest results
      else
        let similarity_score : ℚ :=
          if 0 < max_distance then 1 - distance / max_distance else 1
        if similarity_score < min_score then
          process_loop mdl segment_types meeting_ids project_id min_score
            top_k max_distance rest results
        else
          let results' := results ++ [mkResult metadata similarity_score distance]
          if top_k ≤ results'.length then results'
          else
            process_loop mdl segment_types meeting_ids project_id min_score
              top_k max_distance rest results'
    else
      process_loop mdl segment_types meeting_ids project_id min_score
        top_k max_distance rest results

/-- Final ordering of `results.sort(key=similarity, reverse=True)`. -/
def simGE (a b : SearchResult) : Prop :=
  b.similarity_score ≤ a.similarity_score

instance : DecidableRel simGE := fun a b => by
  unfold simGE; infer_instance

/-- State `search` actually queries: when no index is in memory the method
first reruns `_load_index`, which mutates the object. -/
def search_state (s : VectorStoreService) : VectorStoreService :=
  match s.index with
  | none => s.load_index
  | some _ => s

/-- Model of `search`: reload from disk when no index is in memory, return
`[]` for an uninitialized or empty store, otherwise over-fetch
`min(top_k * 2, len(metadata_list))` candidates from FAISS, run the
processing loop and sort the survivors by descending similarity.  The
returned state records the mutation `_load_index` may have performed. -/
def search (embed : String → List ℚ) (s : VectorStoreService)
    (query : String) (top_k : Nat)
    (segment_types meeting_ids : Option (List String))
    (project_id : Option String) (min_score : ℚ) :
    VectorStoreService × List SearchResult :=
  let s := search_state s
  match s.index with
  | none => (s, [])
  | some ix =>
    if s.metadata_list.length = 0 then (s, [])
    else
      let query_embedding := embed query
      let k := min (top_k * 2) s.metadata_list.length
      let cands := ix.search query_embedding k
      let max_distance := maxDistance cands
      let results := process_loop s.metadata_list segment_types meeting_ids
        project_id min_score top_k max_distance cands []
      (s, List.insertionSort simGE results)

/-! ## Deletion and statistics -/

/-- Count of records for one meeting (`get_meeting_vectors_count`). -/
def get_meeting_vectors_count (s : VectorStoreService)
    (meeting_id : String) : Nat :=
  s.metadata_list.countP (fun md => md.meeting_id == meeting_id)

/-- Rebuild loop of `delete_meeting_vectors`: re-embed each surviving
record's text and add it to the fresh index; a FAISS dimension assertion
aborts the loop (`false`), leaving the partially rebuilt index. -/
def rebuild_loop (embed : String → List ℚ) :
    FaissIndex → List VectorMetadata → FaissIndex × Bool
  | ix, [] => (ix, true)
  | ix, md :: rest =>
    match ix.add (embed md.text) with
    | some ix' => rebuild_loop embed ix' rest
    | none => (ix, false)

/-- Model of `delete_meeting_vectors`: `false` when nothing was deleted
(no index, or no record carries the meeting id); otherwise drop the
meeting's records, rebuild the index from the survivors by re-embedding
their texts (or discard the index entirely when none survive), save, and
return `true`.  Outcome `none` models the exception FAISS raises when a
re-embedded vector's dimension disagrees with the sample's; the state then
keeps the partially rebuilt index and is not saved. -/
def delete_meeting_vectors (embed : String → List ℚ)
    (s : VectorStoreService) (meeting_id : String) :
    VectorStoreService × Option Bool :=
  match s.index with
  | none => (s, some false)
  | some _ =>
    let original_count := s.metadata_list.length
    let newList := s.metadata_list.filter
      (fun md => md.meeting_id != meeting_id)
    let s := { s with metadata_list := newList }
    if newList.length = original_count then (s, some false)
    else
      match newList with
      | [] =>
        let s := { s with index := none }
        (s.save_index, some true)
      | sample :: _ =>
        let embedding_dim := (embed sample.text).length
        let (ix, ok) := rebuild_loop embed ⟨embedding_dim, []⟩ newList
        let s := { s with index := some ix }
        if ok then (s.save_index, some true) else (s, none)

/-- Counter-dict update `d[k] = d.get(k, 0) + 1`, keeping Python dict
insertion order. -/
def bump (counts : List (String × Nat)) (key : String) :
    List (String × Nat) :=
  if counts.any (fun p => p.1 == key) then
    counts.map (fun p => if p.1 == key then (p.1, p.2 + 1) else p)
  else counts ++ [(key, 1)]

/-- Key used by the per-project counter: the project id unless it is
`None` or falsy (the empty string), else the literal key "none". -/
def projectKey (project_id : Option String) : String :=
  match project_id with
  | some p => if p = "" then "none" else p
  | none => "none"

/-- Statistics dict of `get_stats`; the uninitialized store returns a dict
without the `embedding_dimension` and `projects` keys, modelled as `none`
fields. -/
structure Stats where
  total_vectors : Nat
  embedding_dimension : Option Nat
  meetings : List (String × Nat)
  segment_types : List (String × Nat)
  projects : Option (List (String × Nat))
deriving Repr, DecidableEq

/-- Model of `get_stats`. -/
def get_stats (s : VectorStoreService) : Stats :=
  match s.index with
  | none =>
    { total_vectors := 0, embedding_dimension := none,
      meetings := [], segment_types := [], projects := none }
  | some ix =>
    let c := s.metadata_list.foldl
      (fun (acc : List (String × Nat) × List (String × Nat) × List (String × Nat)) md =>
        (bump acc.1 md.meeting_id, bump acc.2.1 md.segment_type,
         bump acc.2.2 (projectKey md.project_id)))
      ([], [], [])
    { total_vectors := s.metadata_list.length,
      embedding_dimension := some ix.d,
      meetings := c.1, segment_types := c.2.1, projects := some c.2.2 }

end VectorStoreService

/-! ## Ingestion (`VectorStoreService.add_meeting_embeddings`)

The ingestion arguments are Python dicts read with `.get(key, default)`;
they are modelled as structures whose fields carry those defaults.  An
absent or falsy (empty) dict/list argument is modelled as `none`: both
make the corresponding section a no-op. -/

/-- Python string `or`: the left operand unless it is falsy (empty). -/
def strOr (a b : String) : String := if a = "" then b else a

structure TranscriptSegment where
  start : Option ℚ := none
deriving Repr, DecidableEq

structure TranscriptInput where
  text : String := ""
  segments : List TranscriptSegment := []
deriving Repr, DecidableEq

structure TopicInput where
  topic : String := ""
  name : String := ""
  description : String := ""
  start_time : Option ℚ := none
deriving Repr, DecidableEq

structure DecisionInput where
  decision : String := ""
  text : String := ""
  context : String := ""
  timestamp : Option ℚ := none
  participants : List String := []
  impact : Option String := none
deriving Repr, DecidableEq

structure ActionItemInput where
  action : String := ""
  task : String := ""
  assignee : String := ""
  deadline : String := ""
  timestamp : Option ℚ := none
  status : String := "pending"
deriving Repr, DecidableEq

/-- The `summary` argument: either a plain (non-empty) string or a dict
with `summary`/`text` keys. -/
inductive SummaryInput where
  | str (s : String)
  | dict (summary : String) (text : String)
deriving Repr, DecidableEq

namespace VectorStoreService

/-- Metadata records for the transcript chunks, with the enumeration index
pairing each chunk with the same-positioned segment when one exists. -/
def transcriptMetasFrom (meeting_id : String) (project_id : Option String)
    (segments : List TranscriptSegment) :
    Nat → List (List Char) → List VectorMetadata
  | _, [] => []
  | chunk_idx, chunk :: rest =>
    let ts : Option ℚ × Option Nat :=
      if h : segments ≠ [] ∧ chunk_idx < segments.length then
        ((segments.get ⟨chunk_idx, h.2⟩).start, some chunk_idx)
      else (none, none)
    { meeting_id := meeting_id, segment_type := "transcript",
      text := ⟨chunk⟩, timestamp := ts.1, segment_index := ts.2,
      project_id := project_id } ::
      transcriptMetasFrom meeting_id project_id segments (chunk_idx + 1) rest

/-- Metadata record for one topic, unless its combined text is empty. -/
def topicMeta (meeting_id : String) (project_id : Option String)
    (topic_idx : Nat) (t : TopicInput) : Option VectorMetadata :=
  let topic_text := strOr t.topic t.name
  let combined_text := (topic_text ++ ". " ++ t.description).trim
  if combined_text = "" then none
  else some
    { meeting_id := meeting_id, segment_type := "topic",
      text := combined_text, timestamp := t.start_time,
      segment_index := some topic_idx, project_id := project_id,
      additional_data := some (.topicData topic_text t.description) }

/-- Metadata record for one decision, unless its combined text is empty. -/
def decisionMeta (meeting_id : String) (project_id : Option String)
    (decision_idx : Nat) (d : DecisionInput) : Option VectorMetadata :=
  let decision_text := strOr d.decision d.text
  let combined_text := (decision_text ++ ". " ++ d.context).trim
  if combined_text = "" then none
  else some
    { meeting_id := meeting_id, segment_type := "decision",
      text := combined_text, timestamp := d.timestamp,
      segment_index := some decision_idx, project_id := project_id,
      additional_data := some (.decisionData decision_text d.context
        d.participants d.impact) }

/-- Metadata record for one action item, unless its combined text is
empty. -/
def actionMeta (meeting_id : String) (project_id : Option String)
    (action_idx : Nat) (a : ActionItemInput) : Option VectorMetadata :=
  let action_text := strOr a.action a.task
  let combined_text := (action_text ++ ". Assigned to: " ++ a.assignee
    ++ ". Deadline: " ++ a.deadline).trim
  if combined_text = "" then none
  else some
    { meeting_id := meeting_id, segment_type := "action_item",
      text := combined_text, timestamp := a.timestamp,
      segment_index := some action_idx, project_id := project_id,
      additional_data := some (.actionData action_text a.assignee
        a.deadline a.status) }

/-- Metadata record for the summary, if the argument is truthy and its
extracted text non-empty. -/
def summaryMeta (meeting_id : String) (project_id : Option String) :
    Option SummaryInput → Option VectorMetadata
  | none => none
  | some (.str s) =>
    if s = "" then none
    else some
      { meeting_id := meeting_id, segment_type := "summary",
        text := s, project_id := project_id, additional_data := none }
  | some (.dict su te) =>
    let summary_text := strOr su te
    if summary_text = "" then none
    else some
      { meeting_id := meeting_id, segment_type := "summary",
        text := summary_text, project_id := project_id,
        additional_data := some .summaryData }

/-- Enumerated collection over a Python `enumerate` loop that only keeps
items whose builder accepts them; the index counts all items. -/
def collectMetas {α : Type} (f : Nat → α → Option VectorMetadata) :
    Nat → List α → List VectorMetadata
  | _, [] => []
  | i, a :: rest =>
    match f i a with
    | some md => md :: collectMetas f (i + 1) rest
    | none => collectMetas f (i + 1) rest

/-- All metadata records `add_meeting_embeddings` submits to `_add_vector`,
in source order (transcript chunks, topics, decisions, action items,
summary).  `none` when the chunker's fuel ran out (the Python call would
still be looping in `_chunk_text`). -/
def meeting_metas (chunk_size chunk_overlap fuel : Nat)
    (meeting_id : String) (transcript : Option TranscriptInput)
    (topics : Option (List TopicInput))
    (decisions : Option (List DecisionInput))
    (action_items : Option (List ActionItemInput))
    (summary : Option SummaryInput) (project_id : Option String) :
    Option (List VectorMetadata) :=
  let tpart : Option (List VectorMetadata) :=
    match transcript with
    | none => some []
    | some tr =>
      if tr.text = "" then some []
      else
        match chunk_text chunk_size chunk_overlap tr.text.toList fuel with
        | none => none
        | some chunks =>
          some (transcriptMetasFrom meeting_id project_id tr.segments 0 chunks)
  match tpart with
  | none => none
  | some tms =>
    let topicMs := match topics with
      | none => []
      | some l => collectMetas (topicMeta meeting_id project_id) 0 l
    let decMs := match decisions with
      | none => []
      | some l => collectMetas (decisionMeta meeting_id project_id) 0 l
    let actMs := match action_items with
      | none => []
      | some l => collectMetas (actionMeta meeting_id project_id) 0 l
    let sumMs := match summaryMeta meeting_id project_id summary with
      | some md => [md]
      | none => []
    some (tms ++ topicMs ++ decMs ++ actMs ++ sumMs)

/-- Model of `add_meeting_embeddings`: run `_add_vector` over every derived
record, then save when at least one vector was added (an exception escapes
before the save).  Returns the updated state, the `vectors_added` count and
whether the method returned normally; `none` when chunking fuel ran out. -/
def add_meeting_embeddings (embed : String → List ℚ) (fuel : Nat)
    (s : VectorStoreService) (meeting_id : String)
    (transcript : Option TranscriptInput)
    (topics : Option (List TopicInput))
    (decisions : Option (List DecisionInput))
    (action_items : Option (List ActionItemInput))
    (summary : Option SummaryInput) (project_id : Option String) :
    Option (VectorStoreService × Nat × Bool) :=
  match meeting_metas s.chunk_size s.chunk_overlap fuel meeting_id
      transcript topics decisions action_items summary project_id with
  | none => none
  | some metas =>
    let r := add_all embed s metas
    if r.2.2 && decide (0 < r.2.1) then some (r.1.save_index, r.2)
    else some r

end VectorStoreService

/-! ## Reachable states

Claim C1 quantifies over sequences of `add_meeting_embeddings` and
`delete_meeting_vectors` calls starting from an empty store (a service
constructed over an empty storage directory). -/

inductive Reach (embed : String → List ℚ) : VectorStoreService → Prop
  | init (chunk_size chunk_overlap : Nat) :
      Reach embed (VectorStoreService.init chunk_size chunk_overlap ⟨none, none⟩)
  | add {s s' : VectorStoreService} {n : Nat} {ok : Bool} (fuel : Nat)
      (meeting_id : String) (transcript : Option TranscriptInput)
      (topics : Option (List TopicInput))
      (decisions : Option (List DecisionInput))
      (action_items : Option (List ActionItemInput))
      (summary : Option SummaryInput) (project_id : Option String) :
      Reach embed s →
      VectorStoreService.add_meeting_embeddings embed fuel s meeting_id
        transcript topics decisions action_items summary project_id
        = some (s', n, ok) →
      Reach embed s'
  | delete {s : VectorStoreService} (meeting_id : String) :
      Reach embed s →
      Reach embed (VectorStoreService.delete_meeting_vectors embed s meeting_id).1

/-! ## The lockstep invariant -/

/-- Memory coherence: an uninitialized index goes with an empty metadata
list, and an initialized index stores, position by position, exactly the
embeddings of the metadata texts. -/
def Coherent (embed : String → List ℚ) :
    Option FaissIndex → List VectorMetadata → Prop
  | none, mdl => mdl = []
  | some ix, mdl => ix.vectors = mdl.map (fun md => embed md.text)

/-- Disk coherence: either no files were written yet, or both files exist
and are coherent with each other. -/
def DiskOK (embed : String → List ℚ) (d : DiskState) : Prop :=
  (d.index_file = none ∧ d.metadata_file = none) ∨
  (∃ ix mdl, d.index_file = some ix ∧ d.metadata_file = some mdl ∧
    ix.vectors = mdl.map (fun md => embed md.text))

/-- The full store invariant. -/
def StoreInv (embed : String → List ℚ) (s : VectorStoreService) : Prop :=
  Coherent embed s.index s.metadata_list ∧ DiskOK embed s.disk

/-- Number of vectors held by an optional index, an uninitialized index
counting as zero. -/
def indexCount : Option FaissIndex → Nat
  | none => 0
  | some ix => ix.ntotal

/-- Vector stored at position `i` of an optional index. -/
def vectorAt (oix : Option FaissIndex) (i : Nat) : Option (List ℚ) :=
  match oix with
  | none => none
  | some ix => ix.vectors[i]?

/-- Reconstruction of a text from its chunk sequence: the first chunk
whole, every later chunk with its leading `chunk_overlap` characters (the
overlap with its predecessor) removed. -/
def reassemble (chunk_overlap : Nat) : List (List Char) → List Char
  | [] => []
  | c :: rest => c ++ (rest.map (fun x => x.drop chunk_overlap)).flatten

/-- Properties of one pass of the chunking loop; the conjunction C6 needs,
relative to a start offset. -/
def ChunkSpec (size overlap start : Nat) (text : List Char)
    (c : List (List Char)) : Prop :=
  c ≠ [] ∧
  (∀ i : Nat, ∀ hi : i < c.length,
    c.get ⟨i, hi⟩ = (text.drop (start + i * (size - overlap))).take size) ∧
  (∀ i : Nat, i + 1 < c.length →
    start + i * (size - overlap) + size < text.length) ∧
  (c.map (fun x => x.drop overlap)).flatten = text.drop (start + overlap) ∧
  reassemble overlap c = text.drop start

namespace VectorStoreService

/-- What is knowable about any result the candidate loop appends: it is
hydrated from a valid metadata position that passed all three filters, its
similarity is the normalized distance, and it survived the `min_score`
cut. -/
def ResultProp (mdl : List VectorMetadata)
    (segment_types meeting_ids : Option (List String))
    (project_id : Option String) (min_score maxd : ℚ)
    (r : SearchResult) : Prop :=
  ∃ i : Fin mdl.length, ∃ dist : ℚ,
    segment_filter_out segment_types (mdl.get i) = false ∧
    meeting_filter_out meeting_ids (mdl.get i) = false ∧
    project_filter_out project_id (mdl.get i) = false ∧
    r = mkResult (mdl.get i)
      (if 0 < maxd then 1 - dist / maxd else 1) dist ∧
    ¬ ((if 0 < maxd then 1 - dist / maxd else 1) < min_score)

end VectorStoreService

/-! ## Concrete fixtures used by witnesses and counterexamples -/

/-- Degenerate embedding provider of dimension zero: every distance is the
empty sum `0`, which keeps whole-pipeline evaluation kernel-computable. -/
def wEmbed0 : String → List ℚ := fun _ => []

def wMd1 : VectorMetadata :=
  { meeting_id := "m1", segment_type := "t", text := "a",
    project_id := some "p" }

def wMd2 : VectorMetadata :=
  { meeting_id := "m2", segment_type := "t", text := "b" }

def wIx0 : FaissIndex := ⟨0, [[], []]⟩

def wStore : VectorStoreService :=
  { index := some wIx0, metadata_list := [wMd1, wMd2], disk := ⟨none, none⟩ }

/-- The result hydrated from `wMd1` (distance 0, similarity 1). -/
def wRes1 : SearchResult :=
  { text := "a", meeting_id := "m1", segment_type := "t", timestamp := none,
    segment_index := none, similarity_score := 1, distance := 0,
    additional_data := none }

/-- Embedding provider of constant dimension 1 used by counterexamples. -/
def wEmbed1 : String → List ℚ := fun _ => [5]

/-- Re-embedding provider whose output differs from the stored vectors. -/
def wEmbed9 : String → List ℚ := fun _ => [9]

/-- A store as `delete_meeting_vectors` leaves it after deleting the last
meeting: memory empty, disk still holding the earlier saved data. -/
def wStaleStore : VectorStoreService :=
  { index := none, metadata_list := [],
    disk := ⟨some ⟨1, [[5]]⟩, some [wMd1]⟩ }

/-- A store whose in-memory index is unset while the disk holds an index of
dimension 2 alongside one record. -/
def wStaleD2Store : VectorStoreService :=
  { index := none, metadata_list := [],
    disk := ⟨some ⟨2, [[1, 1]]⟩, some [wMd1]⟩ }

/-- A store holding a dimension 2 index in memory. -/
def wMem2Store : VectorStoreService :=
  { index := some ⟨2, [[1, 1]]⟩, metadata_list := [wMd1],
    disk := ⟨none, none⟩ }

/-- A two-meeting store whose stored vectors `[[1], [2]]` are what an
earlier provider produced, saved on disk. -/
def wTwoStore : VectorStoreService :=
  { index := some ⟨1, [[1], [2]]⟩, metadata_list := [wMd1, wMd2],
    disk := ⟨some ⟨1, [[1], [2]]⟩, some [wMd1, wMd2]⟩ }

/-- A saved single-meeting store of dimension-zero vectors. -/
def wSavedStore : VectorStoreService :=
  { index := some ⟨0, [[]]⟩, metadata_list := [wMd1],
    disk := ⟨some ⟨0, [[]]⟩, some [wMd1]⟩ }

/-- Constant dimension-1 provider used by the C1 witness. -/
def wEmbedOne : String → List ℚ := fun _ => [1]

def wSummaryMd : VectorMetadata :=
  { meeting_id := "m1", segment_type := "summary", text := "sum" }

/-- The store after ingesting one summary into the empty store under
`wEmbedOne`. -/
def wAfterAdd : VectorStoreService :=
  { index := some ⟨1, [[1]]⟩, metadata_list := [wSummaryMd],
    chunk_size := 500, chunk_overlap := 50,
    disk := ⟨some ⟨1, [[1]]⟩, some [wSummaryMd]⟩ }

namespace VectorStoreService

theorem save_index_index (s : VectorStoreService) :
    (save_index s).index = s.index := by
  unfold save_index
  rcases s with ⟨oix, mdl, cs, co, disk⟩
  cases oix <;> simp <;> split <;> rfl

theorem save_index_metadata (s : VectorStoreService) :
    (save_index s).metadata_list = s.metadata_list := by
  unfold save_index
  rcases s with ⟨oix, mdl, cs, co, disk⟩
  cases oix <;> simp <;> split <;> rfl

theorem save_index_inv (embed : String → List ℚ) (s : VectorStoreService)
    (h : StoreInv embed s) : StoreInv embed (save_index s) := by
  obtain ⟨hc, hd⟩ := h
  unfold save_index
  rcases s with ⟨oix, mdl, cs, co, disk⟩
  cases oix with
  | none => exact ⟨hc, hd⟩
  | some ix =>
    by_cases hl : mdl.length = 0
    · simpa [hl] using And.intro hc hd
    · simp only [hl, if_false]
      refine ⟨hc, Or.inr ⟨ix, mdl, rfl, rfl, ?_⟩⟩
      exact hc

theorem ensure_index_disk (s : VectorStoreService) (dim : Nat) :
    (ensure_index s dim).disk = s.disk := by
  unfold ensure_index
  rcases s with ⟨oix, mdl, cs, co, ⟨fi, fm⟩⟩
  cases oix <;> cases fi <;> cases fm <;> simp <;> split <;> rfl

theorem ensure_index_config (s : VectorStoreService) (dim : Nat) :
    (ensure_index s dim).chunk_size = s.chunk_size ∧
    (ensure_index s dim).chunk_overlap = s.chunk_overlap := by
  unfold ensure_index
  cases hx : s.index with
  | some ix => exact ⟨rfl, rfl⟩
  | none =>
    cases hfi : s.disk.index_file with
    | none => exact ⟨rfl, rfl⟩
    | some ixd =>
      cases hfm : s.disk.metadata_file with
      | none => exact ⟨rfl, rfl⟩
      | some mdld =>
        dsimp only
        split <;> exact ⟨rfl, rfl⟩

theorem ensure_index_inv (embed : String → List ℚ) (s : VectorStoreService)
    (dim : Nat) (h : StoreInv embed s) :
    StoreInv embed (ensure_index s dim) := by
  obtain ⟨hc, hd⟩ := h
  unfold ensure_index
  cases hx : s.index with
  | some ix =>
    dsimp only
    exact ⟨hc, hd⟩
  | none =>
    rw [hx] at hc
    have hml : s.metadata_list = [] := hc
    cases hfi : s.disk.index_file with
    | none => dsimp only; exact ⟨by rw [hml]; rfl, hd⟩
    | some ixd =>
      cases hfm : s.disk.metadata_file with
      | none => dsimp only; exact ⟨by rw [hml]; rfl, hd⟩
      | some mdld =>
        dsimp only
        by_cases hdim : ixd.d ≠ dim
        · rw [if_pos hdim]
          exact ⟨rfl, hd⟩
        · rw [if_neg hdim]
          refine ⟨?_, hd⟩
          rcases hd with ⟨h1, _⟩ | ⟨ix', mdl', h1, h2, h3⟩
          · rw [hfi] at h1; exact absurd h1 (by simp)
          · rw [hfi] at h1
            rw [hfm] at h2
            obtain rfl : ixd = ix' := Option.some.inj h1
            obtain rfl : mdld = mdl' := Option.some.inj h2
            exact h3

end VectorStoreService

namespace VectorStoreService

theorem add_vector_inv (embed : String → List ℚ) (s : VectorStoreService)
    (md : VectorMetadata) (h : StoreInv embed s) :
    StoreInv embed (add_vector embed s md).1 := by
  have h' := ensure_index_inv embed s (embed md.text).length h
  unfold add_vector
  dsimp only
  cases hix : (ensure_index s (embed md.text).length).index with
  | none => dsimp only; exact h'
  | some ix =>
    dsimp only
    cases hadd : ix.add (embed md.text) with
    | none => dsimp only; exact h'
    | some ix' =>
      dsimp only
      obtain ⟨hc, hd⟩ := h'
      rw [hix] at hc
      have hv : ix'.vectors = ix.vectors ++ [embed md.text] := by
        unfold FaissIndex.add at hadd
        by_cases hlen : (embed md.text).length = ix.d
        · rw [if_pos hlen] at hadd
          cases hadd
          rfl
        · rw [if_neg hlen] at hadd
          cases hadd
      refine ⟨?_, hd⟩
      show ix'.vectors = _
      rw [hv, hc]
      simp

theorem add_all_inv (embed : String → List ℚ)
    (metas : List VectorMetadata) :
    ∀ s : VectorStoreService, StoreInv embed s →
      StoreInv embed (add_all embed s metas).1 := by
  induction metas with
  | nil => intro s h; exact h
  | cons md rest ih =>
    intro s h
    have h1 := add_vector_inv embed s md h
    unfold add_all
    cases hav : add_vector embed s md with
    | mk s' ok =>
      rw [hav] at h1
      cases ok with
      | false => exact h1
      | true =>
        dsimp only
        have h2 := ih s' h1
        cases h3 : add_all embed s' rest with
        | mk s'' r =>
          rw [h3] at h2
          exact h2

theorem add_meeting_embeddings_inv (embed : String → List ℚ) (fuel : Nat)
    (s s' : VectorStoreService) (n : Nat) (ok : Bool) (meeting_id : String)
    (transcript : Option TranscriptInput) (topics : Option (List TopicInput))
    (decisions : Option (List DecisionInput))
    (action_items : Option (List ActionItemInput))
    (summary : Option SummaryInput) (project_id : Option String)
    (h : StoreInv embed s)
    (hr : add_meeting_embeddings embed fuel s meeting_id transcript topics
      decisions action_items summary project_id = some (s', n, ok)) :
    StoreInv embed s' := by
  unfold add_meeting_embeddings at hr
  cases hm : meeting_metas s.chunk_size s.chunk_overlap fuel meeting_id
      transcript topics decisions action_items summary project_id with
  | none => rw [hm] at hr; cases hr
  | some metas =>
    rw [hm] at hr
    dsimp only at hr
    have hinv := add_all_inv embed metas s h
    split at hr
    · obtain ⟨h1, -⟩ : (add_all embed s metas).1.save_index = s' ∧
          (add_all embed s metas).2 = (n, ok) := by
        simpa using hr
      rw [← h1]
      exact save_index_inv embed _ hinv
    · obtain h1 : add_all embed s metas = (s', n, ok) := by
        simpa using hr
      rw [h1] at hinv
      exact hinv

theorem rebuild_loop_eq (embed : String → List ℚ)
    (l : List VectorMetadata) :
    ∀ ix : FaissIndex, (∀ md ∈ l, (embed md.text).length = ix.d) →
      rebuild_loop embed ix l =
        (⟨ix.d, ix.vectors ++ l.map (fun md => embed md.text)⟩, true) := by
  induction l with
  | nil => intro ix h; simp [rebuild_loop]
  | cons md rest ih =>
    intro ix h
    unfold rebuild_loop
    have hadd : ix.add (embed md.text)
        = some ⟨ix.d, ix.vectors ++ [embed md.text]⟩ := by
      unfold FaissIndex.add
      rw [if_pos (h md (by simp))]
    rw [hadd]
    dsimp only
    rw [ih ⟨ix.d, ix.vectors ++ [embed md.text]⟩
      (fun md' hmd' => h md' (by simp [hmd']))]
    simp

theorem delete_meeting_vectors_inv (embed : String → List ℚ) (D : Nat)
    (hD : ∀ t, (embed t).length = D) (s : VectorStoreService)
    (meeting_id : String) (h : StoreInv embed s) :
    StoreInv embed (delete_meeting_vectors embed s meeting_id).1 := by
  obtain ⟨hc, hd⟩ := h
  unfold delete_meeting_vectors
  cases hx : s.index with
  | none => exact ⟨hc, hd⟩
  | some ix =>
    dsimp only
    rw [hx] at hc
    by_cases heq : (s.metadata_list.filter
        (fun md => md.meeting_id != meeting_id)).length
        = s.metadata_list.length
    · rw [if_pos heq]
      have hfe : s.metadata_list.filter
          (fun md => md.meeting_id != meeting_id) = s.metadata_list :=
        List.filter_eq_self.mpr (List.filter_length_eq_length.mp heq)
      refine ⟨?_, hd⟩
      show ix.vectors = _
      rw [hfe, ← hc]
    · rw [if_neg heq]
      cases hnl : s.metadata_list.filter
          (fun md => md.meeting_id != meeting_id) with
      | nil =>
        dsimp only
        exact save_index_inv embed _ ⟨rfl, hd⟩
      | cons sample rest =>
        dsimp only
        rw [rebuild_loop_eq embed (sample :: rest) ⟨(embed sample.text).length, []⟩
          (by intro md' hmd'; rw [hD md'.text, hD sample.text])]
        dsimp only
        refine save_index_inv embed _ ⟨?_, hd⟩
        show [] ++ (sample :: rest).map (fun md => embed md.text) = _
        rw [List.nil_append]

theorem init_inv (embed : String → List ℚ) (cs co : Nat) :
    StoreInv embed (init cs co ⟨none, none⟩) := by
  unfold init load_index
  exact ⟨rfl, Or.inl ⟨rfl, rfl⟩⟩

end VectorStoreService

theorem reach_inv (embed : String → List ℚ) (D : Nat)
    (hD : ∀ t, (embed t).length = D) (s : VectorStoreService)
    (h : Reach embed s) : StoreInv embed s := by
  induction h with
  | init cs co => exact VectorStoreService.init_inv embed cs co
  | add fuel meeting_id transcript topics decisions action_items summary
      project_id hre hs ih =>
    exact VectorStoreService.add_meeting_embeddings_inv embed fuel _ _ _ _
      meeting_id transcript topics decisions action_items summary project_id
      ih hs
  | delete meeting_id hre ih =>
    exact VectorStoreService.delete_meeting_vectors_inv embed D hD _
      meeting_id ih

/-- C1: for every sequence of `add_meeting_embeddings` and
`delete_meeting_vectors` operations starting from an empty store (under a
dimensionally stable embedding provider, as the spec's external-interface
contract requires), the number of vectors in the index equals the number of
records in the metadata list — an uninitialized index counting as zero —
and position `i` of the index corresponds to `metadata_list[i]`: it holds
exactly the embedding of that record's text. -/
theorem C1_index_metadata_lockstep (embed : String → List ℚ) (D : Nat)
    (hD : ∀ t, (embed t).length = D) (s : VectorStoreService)
    (h : Reach embed s) :
    indexCount s.index = s.metadata_list.length ∧
    ∀ i : Nat, ∀ hi : i < s.metadata_list.length,
      vectorAt s.index i = some (embed (s.metadata_list.get ⟨i, hi⟩).text) := by
  obtain ⟨hc, -⟩ := reach_inv embed D hD s h
  cases hx : s.index with
  | none =>
    rw [hx] at hc
    have hml : s.metadata_list = [] := hc
    constructor
    · rw [hml]; rfl
    · intro i hi
      rw [hml] at hi
      exact absurd hi (by simp)
  | some ix =>
    rw [hx] at hc
    have hvec : ix.vectors = s.metadata_list.map (fun md => embed md.text) := hc
    constructor
    · show ix.ntotal = _
      rw [FaissIndex.ntotal, hvec, List.length_map]
    · intro i hi
      show ix.vectors[i]? = _
      rw [hvec, List.getElem?_map, List.getElem?_eq_getElem (by simpa using hi)]
      simp

/-- Witness for C1: the dimension-1 provider `wEmbedOne` and the store
reached from the empty store by one `add_meeting_embeddings` call that
ingested a summary. -/
theorem C1_index_metadata_lockstep_witness :
    indexCount wAfterAdd.index = wAfterAdd.metadata_list.length ∧
    ∀ i : Nat, ∀ hi : i < wAfterAdd.metadata_list.length,
      vectorAt wAfterAdd.index i
        = some (wEmbedOne ((wAfterAdd.metadata_list.get ⟨i, hi⟩).text)) :=
  C1_index_metadata_lockstep wEmbedOne 1 (fun _ => rfl) wAfterAdd
    (@Reach.add wEmbedOne (VectorStoreService.init 500 50 ⟨none, none⟩)
      wAfterAdd 1 true 1 "m1" none none none none (some (.str "sum")) none
      (Reach.init 500 50) (by decide))

/-! ## Chunker properties (claims C4 and C6) -/

theorem pySlice_eq (text : List Char) (a : Int) (size : Nat) (ha : 0 ≤ a) :
    pySlice text a (a + (size : Int)) = (text.drop a.toNat).take size := by
  unfold pySlice pyBound
  rw [if_neg (by omega), if_neg (by omega)]
  have h1 : (a + (size : Int)).toNat = a.toNat + size := by omega
  rw [h1]
  by_cases hle : a.toNat ≤ text.length
  · rw [min_eq_left hle, List.drop_take]
    have h2 : min (a.toNat + size) text.length - a.toNat
        = min size (text.length - a.toNat) := by omega
    rw [h2, ← List.take_take]
    rw [List.take_of_length_le (le_of_eq (List.length_drop a.toNat text))]
  · rw [min_eq_right (by omega), min_eq_right (by omega)]
    rw [List.take_of_length_le (le_refl _),
      List.drop_eq_nil_of_le (le_refl _),
      List.drop_eq_nil_of_le (by omega), List.take_nil]

theorem chunkLoop_none (size : Nat) (step : Int) (text : List Char)
    (hstep : step ≤ 0) (hlong : (size : Int) < (text.length : Int)) :
    ∀ fuel : Nat, ∀ start : Int, start ≤ 0 → ∀ acc : List (List Char),
      chunkLoop size step text fuel start acc = none := by
  intro fuel
  induction fuel with
  | zero => intro start hs acc; rfl
  | succ f ih =>
    intro start hs acc
    unfold chunkLoop
    rw [if_pos (by omega), if_neg (by omega)]
    exact ih (start + step) (by omega) _

theorem chunkLoop_spec_break (size overlap : Nat) (text : List Char)
    (hov : overlap < size) (fuel start : Nat) (hstart : start < text.length)
    (hend : text.length ≤ start + size) (acc : List (List Char)) :
    chunkLoop size ((size : Int) - (overlap : Int)) text (fuel + 1)
        (start : Int) acc = some (acc ++ [(text.drop start).take size]) ∧
    ChunkSpec size overlap start text [(text.drop start).take size] := by
  have hdrop1 : ((text.drop start).take size).drop overlap
      = text.drop (start + overlap) := by
    rw [List.drop_take, List.drop_drop,
      List.take_of_length_le (by rw [List.length_drop]; omega)]
  refine ⟨?_, ?_, ?_, ?_, ?_, ?_⟩
  · unfold chunkLoop
    rw [if_pos (by exact_mod_cast hstart)]
    dsimp only
    rw [if_pos (by push_cast; omega)]
    rw [pySlice_eq text (start : Int) size (by positivity)]
    simp
  · simp
  · intro i hi
    have hz : i = 0 := by simpa using hi
    subst hz
    simp
  · intro i hi
    simp at hi
  · simp only [List.map_cons, List.map_nil, List.flatten_cons,
      List.flatten_nil, List.append_nil]
    exact hdrop1
  · show (text.drop start).take size ++ _ = _
    simp only [List.map_nil, List.flatten_nil, List.append_nil]
    exact List.take_of_length_le (by rw [List.length_drop]; omega)

theorem chunkLoop_spec (size overlap : Nat) (text : List Char)
    (hov : overlap < size) :
    ∀ fuel : Nat, ∀ start : Nat, start < text.length →
      text.length ≤ start + size + (size - overlap) * fuel →
      ∀ acc : List (List Char),
      ∃ c : List (List Char),
        chunkLoop size ((size : Int) - (overlap : Int)) text (fuel + 1)
          (start : Int) acc = some (acc ++ c) ∧
        ChunkSpec size overlap start text c := by
  intro fuel
  induction fuel with
  | zero =>
    intro start hstart hbound acc
    exact ⟨_, chunkLoop_spec_break size overlap text hov 0 start hstart
      (by omega) acc⟩
  | succ f ih =>
    intro start hstart hbound acc
    by_cases hend : text.length ≤ start + size
    · exact ⟨_, chunkLoop_spec_break size overlap text hov (f + 1) start
        hstart hend acc⟩
    · have hstep : 0 < size - overlap := by omega
      have hstart' : start + (size - overlap) < text.length := by omega
      have hbound' : text.length
          ≤ (start + (size - overlap)) + size + (size - overlap) * f := by
        have : (size - overlap) * (f + 1)
            = (size - overlap) + (size - overlap) * f := by ring
        omega
      obtain ⟨c', heq', hne', hget', hbdy', hflat', hre'⟩ :=
        ih (start + (size - overlap)) hstart' hbound'
          (acc ++ [(text.drop start).take size])
      refine ⟨(text.drop start).take size :: c', ?_, ?_, ?_, ?_, ?_, ?_⟩
      · show chunkLoop size ((size : Int) - (overlap : Int)) text (f + 1 + 1)
          (start : Int) acc = _
        unfold chunkLoop
        rw [if_pos (by exact_mod_cast hstart)]
        dsimp only
        rw [if_neg (by push_cast; omega)]
        rw [pySlice_eq text (start : Int) size (by positivity)]
        have hcast : (start : Int) + ((size : Int) - (overlap : Int))
            = ((start + (size - overlap) : Nat) : Int) := by push_cast; omega
        rw [hcast]
        simp only [Int.toNat_natCast]
        rw [heq']
        simp
      · simp
      · intro i hi
        cases i with
        | zero => simp
        | succ j =>
          have hj : j < c'.length := by simpa using hi
          have := hget' j hj
          simp only [List.get_cons_succ]
          rw [this]
          congr 2
          ring
      · intro i hi
        cases i with
        | zero => simpa using Nat.lt_of_not_le hend
        | succ j =>
          have hj : j + 1 < c'.length := by simpa using hi
          have := hbdy' j hj
          have harith : start + (size - overlap) + j * (size - overlap)
              = start + (j + 1) * (size - overlap) := by ring
          omega
      · simp only [List.map_cons, List.flatten_cons]
        rw [hflat']
        have e1 : ((text.drop start).take size).drop overlap
            = (text.drop (start + overlap)).take (size - overlap) := by
          rw [List.drop_take, List.drop_drop]
        have e2 : start + (size - overlap) + overlap
            = start + overlap + (size - overlap) := by omega
        have e3 : text.drop (start + overlap + (size - overlap))
            = (text.drop (start + overlap)).drop (size - overlap) :=
          (List.drop_drop (size - overlap) (start + overlap) text).symm
        rw [e1, e2, e3]
        exact List.take_append_drop (size - overlap) (text.drop (start + overlap))
      · show (text.drop start).take size ++ _ = _
        rw [hflat']
        have h1 : start + (size - overlap) + overlap = start + size := by omega
        rw [h1]
        have h2 : text.drop (start + size) = (text.drop start).drop size := by
          rw [List.drop_drop]
        rw [h2]
        exact List.take_append_drop size (text.drop start)

/-- C6: under the precondition `chunk_overlap < chunk_size`, a text no
longer than `chunk_size` is returned as the single chunk equal to the
input, and a longer text yields chunks where chunk `i` starts at character
offset `i * (chunk_size - chunk_overlap)` and is the `chunk_size`-character
window there (so every chunk but possibly the last has length exactly
`chunk_size`), the windows cover the text, and concatenating the
non-overlapping regions of consecutive chunks reconstructs the input. -/
theorem C6_chunk_windows (chunk_size chunk_overlap : Nat)
    (text : List Char) (hov : chunk_overlap < chunk_size) :
    (text.length ≤ chunk_size →
      chunk_text chunk_size chunk_overlap text text.length = some [text]) ∧
    (chunk_size < text.length →
      ∃ c : List (List Char),
        chunk_text chunk_size chunk_overlap text text.length = some c ∧
        c ≠ [] ∧
        (∀ i : Nat, ∀ hi : i < c.length,
          c.get ⟨i, hi⟩
            = (text.drop (i * (chunk_size - chunk_overlap))).take chunk_size) ∧
        (∀ i : Nat, ∀ hi : i < c.length, i + 1 < c.length →
          (c.get ⟨i, hi⟩).length = chunk_size) ∧
        reassemble chunk_overlap c = text) := by
  constructor
  · intro hle
    unfold chunk_text
    rw [if_pos hle]
  · intro hgt
    have hfuel : text.length = (text.length - 1) + 1 := by omega
    have hstep : 1 ≤ chunk_size - chunk_overlap := by omega
    have hmul : text.length - 1
        ≤ (chunk_size - chunk_overlap) * (text.length - 1) :=
      Nat.le_mul_of_pos_left (text.length - 1) (by omega)
    obtain ⟨c, heq, hne, hget, hbdy, hflat, hre⟩ :=
      chunkLoop_spec chunk_size chunk_overlap text hov (text.length - 1) 0
        (by omega) (by omega) []
    refine ⟨c, ?_, hne, ?_, ?_, ?_⟩
    · unfold chunk_text
      rw [if_neg (by omega), hfuel]
      simpa using heq
    · intro i hi
      have := hget i hi
      simpa using this
    · intro i hi hlast
      rw [hget i hi, List.length_take, List.length_drop]
      have := hbdy i hlast
      omega
    · simpa using hre

/-- Witness for C6 at `chunk_size` 3, `chunk_overlap` 1, text "abcd". -/
theorem C6_chunk_windows_witness :
    1 < 3 ∧
    (3 < (['a', 'b', 'c', 'd'] : List Char).length ∧
      ∃ c : List (List Char),
        chunk_text 3 1 ['a', 'b', 'c', 'd'] 4 = some c ∧
        c ≠ [] ∧
        (∀ i : Nat, ∀ hi : i < c.length,
          c.get ⟨i, hi⟩ = ((['a', 'b', 'c', 'd'] : List Char).drop (i * 2)).take 3) ∧
        (∀ i : Nat, ∀ hi : i < c.length, i + 1 < c.length →
          (c.get ⟨i, hi⟩).length = 3) ∧
        reassemble 1 c = ['a', 'b', 'c', 'd']) :=
  ⟨by decide, by decide,
    (C6_chunk_windows 3 1 ['a', 'b', 'c', 'd'] (by decide)).2 (by decide)⟩

/-- C4 counterexample: with `chunk_overlap` 5 ≥ `chunk_size` 3, the chunker
accepts a short text and returns it unchanged as a single chunk — no
validation rejects the configuration (no `InvalidConfiguration` error
exists anywhere in the code). -/
theorem C4_counterexample :
    chunk_text 3 5 ['a', 'b'] 1 = some [['a', 'b']] := by decide

/-- C4 (amended): the code never validates `overlap < chunk_size`.  With
`chunk_overlap ≥ chunk_size`, a text no longer than `chunk_size` is still
chunked (accepted, returned whole), and for any longer text the sliding
loop never terminates: it returns `none` for every fuel bound, the Python
original looping forever. -/
theorem C4_overlap_ge_size_behavior (chunk_size chunk_overlap : Nat)
    (hbad : chunk_size ≤ chunk_overlap) :
    (∀ text : List Char, ∀ fuel : Nat, text.length ≤ chunk_size →
      chunk_text chunk_size chunk_overlap text fuel = some [text]) ∧
    (∀ text : List Char, ∀ fuel : Nat, chunk_size < text.length →
      chunk_text chunk_size chunk_overlap text fuel = none) := by
  constructor
  · intro text fuel hle
    unfold chunk_text
    rw [if_pos hle]
  · intro text fuel hgt
    unfold chunk_text
    rw [if_neg (by omega)]
    exact chunkLoop_none chunk_size _ text (by push_cast; omega)
      (by exact_mod_cast hgt) fuel 0 (le_refl 0) []

/-- Witness for the amended C4 at `chunk_size` 3, `chunk_overlap` 5. -/
theorem C4_overlap_ge_size_behavior_witness :
    3 ≤ 5 ∧ chunk_text 3 5 ['a', 'b'] 7 = some [['a', 'b']]
      ∧ chunk_text 3 5 ['a', 'b', 'c', 'd'] 9 = none :=
  ⟨by decide,
   (C4_overlap_ge_size_behavior 3 5 (by decide)).1 ['a', 'b'] 7 (by decide),
   (C4_overlap_ge_size_behavior 3 5 (by decide)).2 ['a', 'b', 'c', 'd'] 9
     (by decide)⟩

/-! ## Search-pipeline lemmas (claims C5, C7, C10) -/

namespace FaissIndex

theorem scoredFrom_length (q : List ℚ) :
    ∀ i : Nat, ∀ vs : List (List ℚ), (scoredFrom q i vs).length = vs.length := by
  intro i vs
  induction vs generalizing i with
  | nil => rfl
  | cons v rest ih => simp [scoredFrom, ih]

theorem scoredFrom_idx_lt (q : List ℚ) :
    ∀ i : Nat, ∀ vs : List (List ℚ), ∀ p ∈ scoredFrom q i vs,
      p.1 < i + vs.length := by
  intro i vs
  induction vs generalizing i with
  | nil => intro p hp; simp [scoredFrom] at hp
  | cons v rest ih =>
    intro p hp
    rcases (by simpa [scoredFrom] using hp :
        p = (i, sqL2 q v) ∨ p ∈ scoredFrom q (i + 1) rest) with h | h
    · subst h; simp
    · have := ih (i + 1) p h
      simp only [List.length_cons]
      omega

theorem search_length (ix : FaissIndex) (q : List ℚ) (k : Nat) :
    (ix.search q k).length = min k ix.ntotal := by
  unfold search
  rw [List.length_take, (List.perm_insertionSort candLE _).length_eq,
    scoredFrom_length]
  rfl

theorem search_idx_lt (ix : FaissIndex) (q : List ℚ) (k : Nat) :
    ∀ p ∈ ix.search q k, p.1 < ix.ntotal := by
  intro p hp
  have h1 : p ∈ List.insertionSort candLE (scoredFrom q 0 ix.vectors) :=
    List.take_subset k _ hp
  have h2 : p ∈ scoredFrom q 0 ix.vectors :=
    (List.perm_insertionSort candLE _).mem_iff.mp h1
  have := scoredFrom_idx_lt q 0 ix.vectors p h2
  simpa [ntotal] using this

theorem sqL2_nonneg (a b : List ℚ) : 0 ≤ sqL2 a b := by
  unfold sqL2
  induction a generalizing b with
  | nil => simp
  | cons x xs ih =>
    cases b with
    | nil => simp
    | cons y ys =>
      simp only [List.zipWith_cons_cons, List.sum_cons]
      have h1 : (0 : ℚ) ≤ (x - y) ^ 2 := sq_nonneg _
      have h2 := ih ys
      linarith

theorem scoredFrom_dist_nonneg (q : List ℚ) :
    ∀ i : Nat, ∀ vs : List (List ℚ), ∀ p ∈ scoredFrom q i vs, 0 ≤ p.2 := by
  intro i vs
  induction vs generalizing i with
  | nil => intro p hp; simp [scoredFrom] at hp
  | cons v rest ih =>
    intro p hp
    rcases (by simpa [scoredFrom] using hp :
        p = (i, sqL2 q v) ∨ p ∈ scoredFrom q (i + 1) rest) with h | h
    · subst h; exact sqL2_nonneg q v
    · exact ih (i + 1) p h

theorem search_dist_nonneg (ix : FaissIndex) (q : List ℚ) (k : Nat) :
    ∀ p ∈ ix.search q k, 0 ≤ p.2 := by
  intro p hp
  have h1 : p ∈ scoredFrom q 0 ix.vectors :=
    (List.perm_insertionSort candLE _).mem_iff.mp (List.take_subset k _ hp)
  exact scoredFrom_dist_nonneg q 0 ix.vectors p h1

end FaissIndex

namespace VectorStoreService

theorem foldl_max_nonneg (l : List ℚ) :
    ∀ a : ℚ, 0 ≤ a → 0 ≤ l.foldl max a := by
  induction l with
  | nil => intro a ha; exact ha
  | cons x xs ih =>
    intro a ha
    exact ih (max a x) (le_trans ha (le_max_left a x))

theorem maxDistance_nonneg (cands : List (Nat × ℚ))
    (h : ∀ p ∈ cands, 0 ≤ p.2) : 0 ≤ maxDistance cands := by
  unfold maxDistance
  cases cands with
  | nil => norm_num
  | cons p rest =>
    simp only [List.map_cons]
    exact foldl_max_nonneg _ p.2 (h p (by simp))

theorem process_loop_mem (mdl : List VectorMetadata)
    (segment_types meeting_ids : Option (List String))
    (project_id : Option String) (min_score : ℚ) (top_k : Nat) (maxd : ℚ) :
    ∀ cands : List (Nat × ℚ), ∀ results : List SearchResult,
    ∀ r ∈ process_loop mdl segment_types meeting_ids project_id min_score
        top_k maxd cands results,
      r ∈ results ∨
      ResultProp mdl segment_types meeting_ids project_id min_score maxd r := by
  intro cands
  induction cands with
  | nil => intro results r hr; exact Or.inl hr
  | cons cand rest ih =>
    intro results r hr
    obtain ⟨idx, dist⟩ := cand
    unfold process_loop at hr
    by_cases hidx : idx < mdl.length
    · rw [dif_pos hidx] at hr
      dsimp only at hr
      by_cases hfil : (segment_filter_out segment_types (mdl.get ⟨idx, hidx⟩)
          || meeting_filter_out meeting_ids (mdl.get ⟨idx, hidx⟩)
          || project_filter_out project_id (mdl.get ⟨idx, hidx⟩)) = true
      · rw [if_pos hfil] at hr
        exact ih results r hr
      · rw [if_neg hfil] at hr
        obtain ⟨hf1, hf2, hf3⟩ :
            segment_filter_out segment_types (mdl.get ⟨idx, hidx⟩) = false ∧
            meeting_filter_out meeting_ids (mdl.get ⟨idx, hidx⟩) = false ∧
            project_filter_out project_id (mdl.get ⟨idx, hidx⟩) = false := by
          simpa [Bool.or_eq_false_iff, and_assoc] using hfil
        by_cases hms : (if 0 < maxd then 1 - dist / maxd else 1) < min_score
        · rw [if_pos hms] at hr
          exact ih results r hr
        · rw [if_neg hms] at hr
          have hprop : ResultProp mdl segment_types meeting_ids project_id
              min_score maxd (mkResult (mdl.get ⟨idx, hidx⟩)
                (if 0 < maxd then 1 - dist / maxd else 1) dist) :=
            ⟨⟨idx, hidx⟩, dist, hf1, hf2, hf3, rfl, hms⟩
          by_cases hstop : top_k ≤ (results ++ [mkResult (mdl.get ⟨idx, hidx⟩)
              (if 0 < maxd then 1 - dist / maxd else 1) dist]).length
          · rw [if_pos hstop] at hr
            rcases List.mem_append.mp hr with h | h
            · exact Or.inl h
            · have h2 := hprop
              rw [← List.mem_singleton.mp h] at h2
              exact Or.inr h2
          · rw [if_neg hstop] at hr
            rcases ih _ r hr with h | h
            · rcases List.mem_append.mp h with h' | h'
              · exact Or.inl h'
              · have h2 := hprop
                rw [← List.mem_singleton.mp h'] at h2
                exact Or.inr h2
            · exact Or.inr h
    · rw [dif_neg hidx] at hr
      exact ih results r hr

end VectorStoreService

namespace VectorStoreService

theorem search_results_mem (embed : String → List ℚ)
    (s : VectorStoreService) (ix : FaissIndex) (query : String)
    (top_k : Nat) (segment_types meeting_ids : Option (List String))
    (project_id : Option String) (min_score : ℚ)
    (hix : (search_state s).index = some ix) :
    ∀ r ∈ (search embed s query top_k segment_types meeting_ids project_id
        min_score).2,
      ResultProp (search_state s).metadata_list segment_types meeting_ids
        project_id min_score
        (maxDistance (ix.search (embed query)
          (min (top_k * 2) (search_state s).metadata_list.length))) r := by
  intro r hr
  unfold search at hr
  dsimp only at hr
  rw [hix] at hr
  dsimp only at hr
  by_cases hlen : (search_state s).metadata_list.length = 0
  · rw [if_pos hlen] at hr
    simp at hr
  · rw [if_neg hlen] at hr
    dsimp only at hr
    have hmem : r ∈ process_loop (search_state s).metadata_list
        segment_types meeting_ids project_id min_score top_k
        (maxDistance (ix.search (embed query)
          (min (top_k * 2) (search_state s).metadata_list.length)))
        (ix.search (embed query)
          (min (top_k * 2) (search_state s).metadata_list.length)) [] :=
      (List.perm_insertionSort simGE _).mem_iff.mp hr
    rcases process_loop_mem (search_state s).metadata_list segment_types
        meeting_ids project_id min_score top_k _ _ [] r hmem with h | h
    · simp at h
    · exact h

end VectorStoreService

open VectorStoreService

/-- C5: over a non-empty store whose index and metadata agree in size, the
candidate set fetched from FAISS has exactly `min(2 * top_k, total_records)`
entries, every returned result's similarity equals
`1 - distance / max_distance` for the maximum distance within that
candidate set (`1.0` for all candidates when that maximum is zero), and
every candidate scoring below `min_score` is excluded: all returned
results score at least `min_score`. -/
theorem C5_candidate_set_and_similarity (embed : String → List ℚ)
    (s : VectorStoreService) (ix : FaissIndex) (query : String)
    (top_k : Nat) (segment_types meeting_ids : Option (List String))
    (project_id : Option String) (min_score : ℚ) (k : Nat)
    (cands : List (Nat × ℚ)) (maxd : ℚ)
    (hix : (search_state s).index = some ix)
    (hsz : ix.ntotal = (search_state s).metadata_list.length)
    (hk : k = min (top_k * 2) (search_state s).metadata_list.length)
    (hc : cands = ix.search (embed query) k)
    (hmax : maxd = maxDistance cands) :
    cands.length = min (2 * top_k) (search_state s).metadata_list.length ∧
    ∀ r ∈ (search embed s query top_k segment_types meeting_ids project_id
        min_score).2,
      r.similarity_score = (if maxd = 0 then 1 else 1 - r.distance / maxd) ∧
      min_score ≤ r.similarity_score := by
  subst hk
  subst hc
  subst hmax
  constructor
  · rw [FaissIndex.search_length, hsz, Nat.mul_comm top_k 2, min_assoc,
      min_self]
  · intro r hr
    have hprop := search_results_mem embed s ix query top_k segment_types
      meeting_ids project_id min_score hix r hr
    obtain ⟨i, dist, -, -, -, heq, hms⟩ := hprop
    have hnn : 0 ≤ maxDistance (ix.search (embed query)
        (min (top_k * 2) (search_state s).metadata_list.length)) :=
      maxDistance_nonneg _ (FaissIndex.search_dist_nonneg ix (embed query) _)
    subst heq
    refine ⟨?_, not_lt.mp hms⟩
    show (if 0 < _ then _ else _) = _
    by_cases h0 : maxDistance (ix.search (embed query)
        (min (top_k * 2) (search_state s).metadata_list.length)) = 0
    · rw [if_pos h0, if_neg (by rw [h0]; exact lt_irrefl 0)]
    · rw [if_neg h0, if_pos (lt_of_le_of_ne hnn (Ne.symm h0))]
      rfl

/-- Witness for C5: the two-record fixture store with `top_k` 5 and the
concrete result returned for `wMd1`. -/
theorem C5_candidate_set_and_similarity_witness :
    (FaissIndex.search wIx0 (wEmbed0 "q") (min (5 * 2) 2)).length
        = min (2 * 5) (search_state wStore).metadata_list.length ∧
    wRes1.similarity_score
      = (if maxDistance (FaissIndex.search wIx0 (wEmbed0 "q") (min (5 * 2) 2))
            = 0
         then 1
         else 1 - wRes1.distance
           / maxDistance (FaissIndex.search wIx0 (wEmbed0 "q")
               (min (5 * 2) 2))) ∧
    (0 : ℚ) ≤ wRes1.similarity_score := by
  have h := C5_candidate_set_and_similarity wEmbed0 wStore wIx0 "q" 5
    none none none 0 (min (5 * 2) 2)
    (FaissIndex.search wIx0 (wEmbed0 "q") (min (5 * 2) 2))
    (maxDistance (FaissIndex.search wIx0 (wEmbed0 "q") (min (5 * 2) 2)))
    rfl rfl rfl rfl rfl
  have h2 := h.2 wRes1 (by decide)
  exact ⟨h.1, h2.1, h2.2⟩

/-- C7: every result returned by a search scoped to project `P` is hydrated
from a record whose `project_id` equals `P`; records with an absent or
different `project_id` never appear (so absent-project records can only
surface when the query passes no project id). -/
theorem C7_project_scoping (embed : String → List ℚ)
    (s : VectorStoreService) (query : String) (top_k : Nat)
    (segment_types meeting_ids : Option (List String)) (P : String)
    (min_score : ℚ) :
    ∀ r ∈ (search embed s query top_k segment_types meeting_ids (some P)
        min_score).2,
      ∃ md ∈ (search_state s).metadata_list,
        md.project_id = some P ∧ r.text = md.text ∧
        r.meeting_id = md.meeting_id ∧ r.segment_type = md.segment_type ∧
        r.additional_data = md.additional_data := by
  intro r hr
  cases hix : (search_state s).index with
  | none =>
    unfold search at hr
    dsimp only at hr
    rw [hix] at hr
    simp at hr
  | some ix =>
    have hprop := search_results_mem embed s ix query top_k segment_types
      meeting_ids (some P) min_score hix r hr
    obtain ⟨i, dist, -, -, hf3, heq, -⟩ := hprop
    refine ⟨(search_state s).metadata_list.get i, List.get_mem _ i.1 i.2, ?_,
      by rw [heq]; rfl, by rw [heq]; rfl, by rw [heq]; rfl, by rw [heq]; rfl⟩
    have hf3' : (((search_state s).metadata_list.get i).project_id
        != some P) = false := hf3
    simpa using hf3'

/-- Witness for C7: in the fixture store, the search scoped to project "p"
returns `wRes1`, which indeed comes from `wMd1`, the record with
`project_id = some "p"`. -/
theorem C7_project_scoping_witness :
    ∃ md ∈ (search_state wStore).metadata_list,
      md.project_id = some "p" ∧ wRes1.text = md.text ∧
      wRes1.meeting_id = md.meeting_id ∧
      wRes1.segment_type = md.segment_type ∧
      wRes1.additional_data = md.additional_data :=
  C7_project_scoping wEmbed0 wStore "q" 5 none none "p" 0 wRes1 (by decide)

/-- C10: for a search over a store whose index size equals its metadata
count, the number of candidates requested from the index never exceeds the
metadata count, every candidate position the index returns is a valid
metadata position (no padding index appears), and every returned result is
hydrated from a valid position of the metadata list. -/
theorem C10_hydration_safety (embed : String → List ℚ)
    (s : VectorStoreService) (ix : FaissIndex) (query : String)
    (top_k : Nat) (segment_types meeting_ids : Option (List String))
    (project_id : Option String) (min_score : ℚ)
    (hix : (search_state s).index = some ix)
    (hsz : ix.ntotal = (search_state s).metadata_list.length) :
    min (top_k * 2) (search_state s).metadata_list.length
        ≤ (search_state s).metadata_list.length ∧
    (∀ p ∈ ix.search (embed query)
        (min (top_k * 2) (search_state s).metadata_list.length),
      p.1 < (search_state s).metadata_list.length) ∧
    ∀ r ∈ (search embed s query top_k segment_types meeting_ids project_id
        min_score).2,
      ∃ i : Fin (search_state s).metadata_list.length,
        r.text = ((search_state s).metadata_list.get i).text ∧
        r.meeting_id = ((search_state s).metadata_list.get i).meeting_id ∧
        r.segment_type = ((search_state s).metadata_list.get i).segment_type := by
  refine ⟨Nat.min_le_right _ _, ?_, ?_⟩
  · intro p hp
    have h := FaissIndex.search_idx_lt ix (embed query) _ p hp
    rw [hsz] at h
    exact h
  · intro r hr
    obtain ⟨i, dist, -, -, -, heq, -⟩ := search_results_mem embed s ix query
      top_k segment_types meeting_ids project_id min_score hix r hr
    exact ⟨i, by rw [heq]; rfl, by rw [heq]; rfl, by rw [heq]; rfl⟩

/-- Witness for C10: the fixture store, `top_k` 5, and the concrete result
`wRes1`, hydrated from position 0. -/
theorem C10_hydration_safety_witness :
    min (5 * 2) (search_state wStore).metadata_list.length
        ≤ (search_state wStore).metadata_list.length ∧
    (0, (0 : ℚ)).1 < (search_state wStore).metadata_list.length ∧
    ∃ i : Fin (search_state wStore).metadata_list.length,
      wRes1.text = ((search_state wStore).metadata_list.get i).text ∧
      wRes1.meeting_id
          = ((search_state wStore).metadata_list.get i).meeting_id ∧
      wRes1.segment_type
          = ((search_state wStore).metadata_list.get i).segment_type := by
  have h := C10_hydration_safety wEmbed0 wStore wIx0 "q" 5 none none none 0
    rfl rfl
  exact ⟨h.1, h.2.1 (0, 0) (by decide), h.2.2 wRes1 (by decide)⟩

/-- C9 counterexample: on a store whose memory is empty but whose disk
still holds earlier data (exactly what deleting the last meeting leaves),
`_save_index` writes nothing, so `load(save(store))` returns the stale disk
record list `[wMd1]` instead of the store's empty record list. -/
theorem C9_counterexample :
    wStaleStore.save_index.load_index.metadata_list = [wMd1] ∧
    wStaleStore.metadata_list = [] := by decide

/-- C9 (amended): the persistence round-trip holds for every store whose
index is initialized and whose record list is non-empty — the only states
`_save_index` actually writes; loading what it wrote restores the identical
index and record list, in order.  When the index is `None` or the record
list is empty, save writes nothing and a load returns the prior disk
contents instead. -/
theorem C9_save_load_roundtrip (s : VectorStoreService) (ix : FaissIndex)
    (hix : s.index = some ix) (hne : s.metadata_list ≠ []) :
    s.save_index.load_index.index = some ix ∧
    s.save_index.load_index.metadata_list = s.metadata_list := by
  have hsave : s.save_index = { s with disk := ⟨some ix, some s.metadata_list⟩ } := by
    unfold save_index
    rw [hix]
    dsimp only
    rw [if_neg (by simpa using hne)]
  rw [hsave]
  unfold load_index
  exact ⟨rfl, rfl⟩

/-- Witness for the amended C9 at the fixture store. -/
theorem C9_save_load_roundtrip_witness :
    wStore.save_index.load_index.index = some wIx0 ∧
    wStore.save_index.load_index.metadata_list = wStore.metadata_list :=
  C9_save_load_roundtrip wStore wIx0 rfl (by decide)

/-- C3 counterexample: with a dimension-2 index persisted on disk (one
record) and a provider now embedding into dimension 1, an insertion does
not fail: `_ensure_index` swallows its own dimension-mismatch `ValueError`,
silently discards the loaded index and metadata, creates a fresh empty
dimension-1 index, and the insertion then succeeds. -/
theorem C3_counterexample :
    (add_vector wEmbed1 wStaleD2Store wMd2).2 = true ∧
    (add_vector wEmbed1 wStaleD2Store wMd2).1.metadata_list = [wMd2] ∧
    (add_vector wEmbed1 wStaleD2Store wMd2).1.index = some ⟨1, [[5]]⟩ := by
  decide

/-- C3 (amended): how a dimension mismatch actually plays out.  When an
index is already in memory, `_ensure_index` performs no dimension check at
all and the mismatched insertion fails at the FAISS `add` assertion,
leaving the state unchanged.  When no index is in memory and the disk holds
one of a different dimension, `_ensure_index` catches the mismatch error it
itself raised and silently discards the loaded index and metadata,
installing a fresh empty index of the new dimension instead of failing. -/
theorem C3_dimension_mismatch_behavior (embed : String → List ℚ)
    (s : VectorStoreService) (md : VectorMetadata) :
    (∀ ix : FaissIndex, s.index = some ix →
      (embed md.text).length ≠ ix.d →
      add_vector embed s md = (s, false)) ∧
    (∀ ixd : FaissIndex, ∀ mdld : List VectorMetadata, ∀ dim : Nat,
      s.index = none → s.disk.index_file = some ixd →
      s.disk.metadata_file = some mdld → ixd.d ≠ dim →
      ensure_index s dim
        = { s with index := some ⟨dim, []⟩, metadata_list := [] }) := by
  constructor
  · intro ix hix hlen
    have hens : ensure_index s (embed md.text).length = s := by
      unfold ensure_index
      rw [hix]
    unfold add_vector
    dsimp only
    rw [hens, hix]
    dsimp only
    rw [show ix.add (embed md.text) = none from by
      unfold FaissIndex.add; rw [if_neg hlen]]
  · intro ixd mdld dim hix hfi hfm hdim
    unfold ensure_index
    rw [hix, hfi, hfm]
    dsimp only
    rw [if_pos hdim]

/-- Witness for the amended C3: the in-memory path on a dimension-2 index
with a dimension-1 provider, and the disk path on the stale store. -/
theorem C3_dimension_mismatch_behavior_witness :
    add_vector wEmbed1 wMem2Store wMd2 = (wMem2Store, false) ∧
    ensure_index wStaleD2Store 1
      = { wStaleD2Store with index := some ⟨1, []⟩, metadata_list := [] } :=
  ⟨(C3_dimension_mismatch_behavior wEmbed1 wMem2Store wMd2).1 ⟨2, [[1, 1]]⟩
      rfl (by decide),
   (C3_dimension_mismatch_behavior wEmbed1 wStaleD2Store wMd2).2 ⟨2, [[1, 1]]⟩
      [wMd1] 1 rfl rfl rfl (by decide)⟩

/-- C2 counterexample: deleting meeting "m1" from a store whose surviving
record's stored vector is `[2]` rebuilds the index with `[9]` — the value
the Embedding Provider returns now — not with the already-stored vector:
the rebuild re-embeds every surviving text through the provider. -/
theorem C2_counterexample :
    (delete_meeting_vectors wEmbed9 wTwoStore "m1").1.index
        = some ⟨1, [[9]]⟩ ∧
    (⟨1, [[9]]⟩ : FaissIndex).vectors ≠ [[2]] := by decide

/-- C2 (amended): for a store holding at least one record of meeting `M`
and at least one survivor, `delete_meeting_vectors M` rebuilds the index by
re-embedding each surviving record's text through the Embedding Provider
(not by re-inserting the already-stored vectors), keeps the surviving
records, persists both files, and a subsequent load yields exactly the
post-deletion contents. -/
theorem C2_delete_rebuild_persists (embed : String → List ℚ) (D : Nat)
    (hD : ∀ t, (embed t).length = D) (s : VectorStoreService)
    (ix : FaissIndex) (M : String) (survivors : List VectorMetadata)
    (hix : s.index = some ix)
    (hs : survivors = s.metadata_list.filter (fun md => md.meeting_id != M))
    (hdel : ∃ md ∈ s.metadata_list, md.meeting_id = M)
    (hsurv : survivors ≠ []) :
    (delete_meeting_vectors embed s M).2 = some true ∧
    (delete_meeting_vectors embed s M).1.index
      = some ⟨D, survivors.map (fun md => embed md.text)⟩ ∧
    (delete_meeting_vectors embed s M).1.metadata_list = survivors ∧
    (delete_meeting_vectors embed s M).1.disk
      = ⟨some ⟨D, survivors.map (fun md => embed md.text)⟩, some survivors⟩ ∧
    (delete_meeting_vectors embed s M).1.load_index.index
      = some ⟨D, survivors.map (fun md => embed md.text)⟩ ∧
    (delete_meeting_vectors embed s M).1.load_index.metadata_list
      = survivors := by
  obtain ⟨sample, rest, hsr⟩ : ∃ a l, survivors = a :: l := by
    cases hcase : survivors with
    | nil => exact absurd hcase hsurv
    | cons a l => exact ⟨a, l, rfl⟩
  have hlen : survivors.length ≠ s.metadata_list.length := by
    intro hcon
    obtain ⟨md, hmem, hmid⟩ := hdel
    rw [hs] at hcon
    have h2 : (md.meeting_id != M) = true :=
      List.filter_length_eq_length.mp hcon md hmem
    rw [hmid] at h2
    simp at h2
  have hdelete : delete_meeting_vectors embed s M
      = ({ s with
            index := some ⟨D, survivors.map (fun md => embed md.text)⟩,
            metadata_list := survivors,
            disk := ⟨some ⟨D, survivors.map (fun md => embed md.text)⟩,
                     some survivors⟩ }, some true) := by
    unfold delete_meeting_vectors
    rw [hix]
    dsimp only
    rw [← hs, hsr]
    rw [if_neg (by intro hcon; exact hlen (by rw [hsr]; exact hcon))]
    dsimp only
    rw [hD sample.text]
    rw [rebuild_loop_eq embed (sample :: rest) ⟨D, []⟩
      (fun md _ => hD md.text)]
    dsimp only
    rw [if_pos rfl]
    unfold save_index
    dsimp only
    rw [if_neg (by simp)]
    rw [← hsr]
    simp
  rw [hdelete]
  exact ⟨rfl, rfl, rfl, rfl, rfl, rfl⟩

/-- Witness for the amended C2: deleting "m1" from the two-meeting fixture
store under the dimension-1 provider `wEmbed9`. -/
theorem C2_delete_rebuild_persists_witness :
    (delete_meeting_vectors wEmbed9 wTwoStore "m1").2 = some true ∧
    (delete_meeting_vectors wEmbed9 wTwoStore "m1").1.index
      = some ⟨1, [wMd2].map (fun md => wEmbed9 md.text)⟩ ∧
    (delete_meeting_vectors wEmbed9 wTwoStore "m1").1.metadata_list
      = [wMd2] ∧
    (delete_meeting_vectors wEmbed9 wTwoStore "m1").1.disk
      = ⟨some ⟨1, [wMd2].map (fun md => wEmbed9 md.text)⟩, some [wMd2]⟩ ∧
    (delete_meeting_vectors wEmbed9 wTwoStore "m1").1.load_index.index
      = some ⟨1, [wMd2].map (fun md => wEmbed9 md.text)⟩ ∧
    (delete_meeting_vectors wEmbed9 wTwoStore "m1").1.load_index.metadata_list
      = [wMd2] :=
  C2_delete_rebuild_persists wEmbed9 1 (fun _ => rfl) wTwoStore
    ⟨1, [[1], [2]]⟩ "m1" [wMd2] rfl (by decide)
    ⟨wMd1, by decide, rfl⟩ (by decide)

/-- C8: demonstration of the resurrection bug at a concrete failing input.
Deleting the only meeting returns `true` and empties the in-memory store
(and `get_stats` drops to zero), but `_save_index` skips writing for an
empty store, so the old files survive on disk; the next `search` finds no
in-memory index, reloads those stale files, and returns the deleted
meeting's record. -/
theorem C8_deleted_meeting_resurrected :
    (delete_meeting_vectors wEmbed0 wSavedStore "m1").2 = some true ∧
    (delete_meeting_vectors wEmbed0 wSavedStore "m1").1.metadata_list = [] ∧
    (get_stats (delete_meeting_vectors wEmbed0 wSavedStore "m1").1).total_vectors
      = 0 ∧
    ((search wEmbed0 (delete_meeting_vectors wEmbed0 wSavedStore "m1").1
        "q" 1 none none none 0).2.map SearchResult.meeting_id) = ["m1"] := by
  decide
